import Mathlib

/-!
Shallow embedding of the go-fi fault-injection engine (package faultinject).

The Go source keeps process-wide state: two rule maps (limits for first-N
rules, precise for Nth-only rules), a counter map, and two classification
lists for the environment gate. Environment variables are read through
os.Getenv on every call. We model Go maps as association lists over String
keys (insertion replaces, deletion removes the key; Go map iteration order
is unspecified, so list order is one admissible order), Go int as Int
(counters only grow by one per call and limits come from configuration, so
64-bit overflow is unreachable in any execution the claims range over),
and the ambient OS environment as a function from variable names to their
values, with the empty string standing for an unset variable exactly as
os.Getenv does.
-/

namespace FaultInject

/-- Embedding of Go strings.ToLower: lowercase every character. -/
def toLowerStr (s : String) : String := String.mk (s.data.map Char.toLower)

/-- A Go map from string keys to int values, as an association list. -/
abbrev SMap := List (String × Int)

/-- Lookup of a key: the two-value form v, ok := m[k] with ok = isSome. -/
def findA : SMap → String → Option Int
  | [], _ => none
  | (k1, v) :: rest, k => if k1 = k then some v else findA rest k

/-- Go delete(m, k): the key is absent afterwards. -/
def eraseA : SMap → String → SMap
  | [], _ => []
  | (k1, v) :: rest, k => if k1 = k then eraseA rest k else (k1, v) :: eraseA rest k

/-- Go assignment m[k] = v: the key maps to v afterwards. -/
def insertA (m : SMap) (k : String) (v : Int) : SMap :=
  (k, v) :: eraseA m k

/-- Single-value Go map read m[k], yielding the zero value 0 when absent. -/
def getA (m : SMap) (k : String) : Int :=
  (findA m k).getD 0

/-- The mutex-protected maps of injector.go: limits, precise, counters. -/
structure Store where
  limits : SMap
  precise : SMap
  counters : SMap
deriving DecidableEq

/-- The empty store, as produced by Reset (fresh maps). -/
def Store.empty : Store := ⟨[], [], []⟩

/-- Process-wide state plus the ambient OS environment. envVars models
os.Getenv: unset variables read as the empty string. -/
structure World where
  store : Store
  allowedEnvironments : List String
  productionEnvironments : List String
  envVars : String → String

/-- Embedding of isProductionEnvironment: resolve ENVIRONMENT, then ENV,
then GO_ENV (each lowercased, first non-empty wins), then classify against
the production list, the allowed list, defaulting to production. -/
def isProductionEnvironment (w : World) : Bool :=
  let env0 := toLowerStr (w.envVars "ENVIRONMENT")
  let env1 := if env0 = "" then toLowerStr (w.envVars "ENV") else env0
  let env := if env1 = "" then toLowerStr (w.envVars "GO_ENV") else env1
  if w.productionEnvironments.contains env then true
  else if w.allowedEnvironments.contains env then false
  else true

/-- Embedding of Inject: production gate first; otherwise bump the counter,
give priority to a positive precise (Nth-only) rule, fall back to a
positive limits (first-N) rule, else false. Returns the verdict and the
updated world. -/
def inject (w : World) (key : String) : Bool × World :=
  if isProductionEnvironment w then (false, w)
  else
    let cnt := getA w.store.counters key + 1
    let w1 : World :=
      { w with store := { w.store with counters := insertA w.store.counters key cnt } }
    let preciseVerdict : Option Bool :=
      match findA w.store.precise key with
      | some nth => if nth > 0 then some (decide (cnt = nth)) else none
      | none => none
    match preciseVerdict with
    | some b => (b, w1)
    | none =>
      match findA w.store.limits key with
      | some lim => if lim > 0 then (decide (cnt ≤ lim), w1) else (false, w1)
      | none => (false, w1)

/-- Embedding of SetFailures: gated in production; otherwise install the
first-N limit, clear any precise rule for the key, zero the counter. -/
def setFailures (w : World) (key : String) (count : Int) : World :=
  if isProductionEnvironment w then w
  else
    { w with store :=
        { limits := insertA w.store.limits key count
          precise := eraseA w.store.precise key
          counters := insertA w.store.counters key 0 } }

/-- Embedding of SetNthFailure: gated in production; otherwise install the
Nth-only rule, clear any first-N rule for the key, zero the counter. -/
def setNthFailure (w : World) (key : String) (nth : Int) : World :=
  if isProductionEnvironment w then w
  else
    { w with store :=
        { limits := eraseA w.store.limits key
          precise := insertA w.store.precise key nth
          counters := insertA w.store.counters key 0 } }

/-- Embedding of Reset: fresh empty maps, no environment gate. -/
def reset (w : World) : World :=
  { w with store := Store.empty }

/-- Embedding of Status: for every key in the limits map, remaining
failures lim - counters[k], clamped at 0. No environment gate. -/
def statusW (w : World) : SMap :=
  w.store.limits.map (fun kv =>
    let used := getA w.store.counters kv.1
    let rem := kv.2 - used
    (kv.1, if rem < 0 then 0 else rem))

/-- A non-nil Go context as InjectWithContext sees it: whether ctx.Err()
is non-nil, and the boolean values retrievable by ctx.Value (a stored
value of any other type makes the type assertion fail, hence none). -/
structure Ctx where
  cancelled : Bool
  values : String → Option Bool

/-- Embedding of InjectWithContext: for a non-nil context, a triggered
cancellation returns false at once; a boolean override stored under
"faultinject:" ++ key is returned verbatim; otherwise delegate to Inject.
A nil context delegates directly. -/
def injectWithContext (w : World) (ctx : Option Ctx) (key : String) : Bool × World :=
  match ctx with
  | some c =>
    if c.cancelled then (false, w)
    else
      match c.values ("faultinject:" ++ key) with
      | some b => (b, w)
      | none => inject w key
  | none => inject w key

/-- The parsed YAML document of spec.go: the failures section (first-N)
and the precise-failures section (Nth-only). -/
structure SpecCfg where
  failures : List (String × Int)
  preciseFailures : List (String × Int)

/-- The mutation phase of LoadSpec after a successful parse: Reset, then
SetFailures for every failures entry, then SetNthFailure for every
precise-failures entry. -/
def applySpec (w : World) (cfg : SpecCfg) : World :=
  let w1 := reset w
  let w2 := cfg.failures.foldl (fun acc kv => setFailures acc kv.1 kv.2) w1
  cfg.preciseFailures.foldl (fun acc kv => setNthFailure acc kv.1 kv.2) w2

/-- Embedding of LoadSpec with the file system and the YAML library as
oracles: readRes is the outcome of os.ReadFile, parse the outcome of
yaml.Unmarshal on the bytes read. Either failure is returned before any
mutation; only a full successful parse reaches applySpec. -/
def loadSpec (w : World) (readRes : Except String String)
    (parse : String → Except String SpecCfg) : Except String Unit × World :=
  match readRes with
  | Except.error e => (Except.error e, w)
  | Except.ok data =>
    match parse data with
    | Except.error e => (Except.error e, w)
    | Except.ok cfg => (Except.ok (), applySpec w cfg)

/-- Results of n successive Inject calls on one key, oldest first. -/
def injectRepeat (w : World) (key : String) : Nat → List Bool × World
  | 0 => ([], w)
  | n + 1 =>
    let p := injectRepeat w key n
    let q := inject p.2 key
    (p.1 ++ [q.1], q.2)

/-- Trace of n successive Inject calls on one key, recording for each call
its verdict and the attempt number it observed (the counter value it
wrote). -/
def injectTrace (w : World) (key : String) : Nat → List (Bool × Int) × World
  | 0 => ([], w)
  | n + 1 =>
    let p := injectTrace w key n
    let q := inject p.2 key
    (p.1 ++ [(q.1, getA q.2.store.counters key)], q.2)

/-- Spec classifier for C6, written from the claim text: take the first
non-empty of the raw variable values, then compare case-insensitively. -/
def firstNonEmpty : List String → String
  | [] => ""
  | s :: rest => if s = "" then firstNonEmpty rest else s

/-- The claim's resolved environment name: first non-empty of ENVIRONMENT,
ENV, GO_ENV, compared case-insensitively (lowercased). -/
def resolvedEnvNameSpec (w : World) : String :=
  toLowerStr (firstNonEmpty [w.envVars "ENVIRONMENT", w.envVars "ENV", w.envVars "GO_ENV"])

/-- The claim's classification: production if on the production list, else
non-production if on the allowed list, else production (empty included). -/
def isProductionSpec (w : World) : Bool :=
  let name := resolvedEnvNameSpec w
  if w.productionEnvironments.contains name then true
  else if w.allowedEnvironments.contains name then false
  else true

/-- A concrete world whose resolved environment is testing: not production
under the default classification lists. -/
def npWorld : World :=
  { store := Store.empty
    allowedEnvironments := ["development", "staging", "testing"]
    productionEnvironments := ["production", "prod"]
    envVars := fun s => if s = "ENVIRONMENT" then "testing" else "" }

/-- A concrete world whose resolved environment is production (written
with a capital letter to exercise the case-insensitive resolution). -/
def pWorld : World :=
  { npWorld with envVars := fun s => if s = "ENVIRONMENT" then "Production" else "" }

/-- A context whose cancellation has already triggered. -/
def cancelledCtx : Ctx := ⟨true, fun _ => none⟩

/-- A live context carrying a true override for key db. -/
def overrideCtx : Ctx := ⟨false, fun s => if s = "faultinject:db" then some true else none⟩

/-- A live context carrying no override. -/
def plainCtx : Ctx := ⟨false, fun _ => none⟩

/-! ### Association-list lemmas -/

theorem findA_eraseA_self (m : SMap) (k : String) : findA (eraseA m k) k = none := by
  induction m with
  | nil => rfl
  | cons kv rest ih =>
    obtain ⟨k1, v⟩ := kv
    by_cases h : k1 = k
    · simpa [eraseA, h] using ih
    · simpa [eraseA, findA, h] using ih

theorem findA_eraseA_ne (m : SMap) (k k1 : String) (h : k1 ≠ k) :
    findA (eraseA m k) k1 = findA m k1 := by
  induction m with
  | nil => rfl
  | cons kv rest ih =>
    obtain ⟨k2, v⟩ := kv
    by_cases h2 : k2 = k
    · simp [eraseA, findA, h2, Ne.symm h, ih]
    · simp [eraseA, findA, h2, ih]

theorem findA_insertA_self (m : SMap) (k : String) (v : Int) :
    findA (insertA m k v) k = some v := by
  simp [insertA, findA]

theorem getA_insertA_self (m : SMap) (k : String) (v : Int) :
    getA (insertA m k v) k = v := by
  simp [getA, findA_insertA_self]

/-! ### Readiness predicates: the per-key state right after configuration -/

/-- The world is not production-gated, key k carries a first-N rule with
the given limit, no precise rule, and counter value c. -/
def FirstNReady (w : World) (k : String) (lim c : Int) : Prop :=
  isProductionEnvironment w = false ∧
  findA w.store.precise k = none ∧
  findA w.store.limits k = some lim ∧
  getA w.store.counters k = c

/-- The world is not production-gated, key k carries an Nth-only rule with
the given target, no first-N rule, and counter value c. -/
def NthReady (w : World) (k : String) (nth c : Int) : Prop :=
  isProductionEnvironment w = false ∧
  findA w.store.precise k = some nth ∧
  findA w.store.limits k = none ∧
  getA w.store.counters k = c

theorem isProd_set_store (w : World) (σ : Store) :
    isProductionEnvironment { w with store := σ } = isProductionEnvironment w := rfl

theorem setFailures_ready (w : World) (k : String) (lim : Int)
    (hp : isProductionEnvironment w = false) :
    FirstNReady (setFailures w k lim) k lim 0 := by
  unfold setFailures
  rw [hp]
  refine ⟨?_, ?_, ?_, ?_⟩
  · simpa [isProd_set_store] using hp
  · simpa using findA_eraseA_self w.store.precise k
  · simpa using findA_insertA_self w.store.limits k lim
  · simpa using getA_insertA_self w.store.counters k 0

theorem setNthFailure_ready (w : World) (k : String) (nth : Int)
    (hp : isProductionEnvironment w = false) :
    NthReady (setNthFailure w k nth) k nth 0 := by
  unfold setNthFailure
  rw [hp]
  refine ⟨?_, ?_, ?_, ?_⟩
  · simpa [isProd_set_store] using hp
  · simpa using findA_insertA_self w.store.precise k nth
  · simpa using findA_eraseA_self w.store.limits k
  · simpa using getA_insertA_self w.store.counters k 0

/-! ### Single-call characterisation of Inject -/

theorem inject_step_firstN (w : World) (k : String) (lim c : Int)
    (h : FirstNReady w k lim c) :
    (inject w k).1 = decide (0 < lim ∧ c + 1 ≤ lim) ∧
    FirstNReady (inject w k).2 k lim (c + 1) := by
  obtain ⟨hp, hpre, hlim, hc⟩ := h
  have hinj : inject w k =
      (decide (0 < lim ∧ c + 1 ≤ lim),
       { w with store := { w.store with counters := insertA w.store.counters k (c + 1) } }) := by
    unfold inject
    rw [hp, hpre, hlim, hc]
    by_cases hl : lim > 0 <;> simp [hl]
  rw [hinj]
  refine ⟨rfl, ?_, ?_, ?_, ?_⟩
  · simpa [isProd_set_store] using hp
  · simpa using hpre
  · simpa using hlim
  · simpa using getA_insertA_self w.store.counters k (c + 1)

theorem inject_step_nth (w : World) (k : String) (nth c : Int)
    (h : NthReady w k nth c) :
    (inject w k).1 = decide (0 < nth ∧ c + 1 = nth) ∧
    NthReady (inject w k).2 k nth (c + 1) := by
  obtain ⟨hp, hpre, hlim, hc⟩ := h
  have hinj : inject w k =
      (decide (0 < nth ∧ c + 1 = nth),
       { w with store := { w.store with counters := insertA w.store.counters k (c + 1) } }) := by
    unfold inject
    rw [hp, hpre, hlim, hc]
    by_cases hn : nth > 0 <;> simp [hn]
  rw [hinj]
  refine ⟨rfl, ?_, ?_, ?_, ?_⟩
  · simpa [isProd_set_store] using hp
  · simpa using hpre
  · simpa using hlim
  · simpa using getA_insertA_self w.store.counters k (c + 1)

/-! ### Iterated calls -/

theorem injectRepeat_firstN (w : World) (k : String) (lim c : Int)
    (h : FirstNReady w k lim c) (N : Nat) :
    (injectRepeat w k N).1
      = (List.range N).map (fun i : Nat => decide (0 < lim ∧ c + (i : Int) + 1 ≤ lim)) ∧
    FirstNReady (injectRepeat w k N).2 k lim (c + (N : Int)) := by
  induction N with
  | zero =>
    refine ⟨rfl, ?_⟩
    simpa [injectRepeat] using h
  | succ N ih =>
    obtain ⟨hres, hready⟩ := ih
    obtain ⟨hstep, hready2⟩ := inject_step_firstN _ k lim (c + (N : Int)) hready
    constructor
    · simp only [injectRepeat]
      rw [hres, hstep, List.range_succ, List.map_append, List.map_cons, List.map_nil]
    · simp only [injectRepeat]
      have hcast : c + ((N + 1 : Nat) : Int) = c + (N : Int) + 1 := by push_cast; ring
      rw [hcast]
      exact hready2

theorem injectRepeat_nth (w : World) (k : String) (nth c : Int)
    (h : NthReady w k nth c) (N : Nat) :
    (injectRepeat w k N).1
      = (List.range N).map (fun i : Nat => decide (0 < nth ∧ c + (i : Int) + 1 = nth)) ∧
    NthReady (injectRepeat w k N).2 k nth (c + (N : Int)) := by
  induction N with
  | zero =>
    refine ⟨rfl, ?_⟩
    simpa [injectRepeat] using h
  | succ N ih =>
    obtain ⟨hres, hready⟩ := ih
    obtain ⟨hstep, hready2⟩ := inject_step_nth _ k nth (c + (N : Int)) hready
    constructor
    · simp only [injectRepeat]
      rw [hres, hstep, List.range_succ, List.map_append, List.map_cons, List.map_nil]
    · simp only [injectRepeat]
      have hcast : c + ((N + 1 : Nat) : Int) = c + (N : Int) + 1 := by push_cast; ring
      rw [hcast]
      exact hready2

theorem injectTrace_firstN (w : World) (k : String) (lim c : Int)
    (h : FirstNReady w k lim c) (N : Nat) :
    (injectTrace w k N).1
      = (List.range N).map
          (fun i : Nat => (decide (0 < lim ∧ c + (i : Int) + 1 ≤ lim), c + (i : Int) + 1)) ∧
    FirstNReady (injectTrace w k N).2 k lim (c + (N : Int)) := by
  induction N with
  | zero =>
    refine ⟨rfl, ?_⟩
    simpa [injectTrace] using h
  | succ N ih =>
    obtain ⟨hres, hready⟩ := ih
    obtain ⟨hstep, hready2⟩ := inject_step_firstN _ k lim (c + (N : Int)) hready
    have hcnt : getA (inject (injectTrace w k N).2 k).2.store.counters k
        = c + (N : Int) + 1 := hready2.2.2.2
    constructor
    · simp only [injectTrace]
      rw [hres, hstep, hcnt, List.range_succ, List.map_append, List.map_cons, List.map_nil]
    · simp only [injectTrace]
      have hcast : c + ((N + 1 : Nat) : Int) = c + (N : Int) + 1 := by push_cast; ring
      rw [hcast]
      exact hready2

/-! ### Claim theorems -/

/-- C1: in a non-production environment, after SetFailures(k, limit) with
limit > 0, the i-th call to Inject(k) (1-based) returns true exactly when
i ≤ limit: the first limit calls return true, call limit+1 and every later
call return false. -/
theorem firstN_injects_first_limit_calls (w : World) (k : String) (lim : Int) (N : Nat)
    (hp : isProductionEnvironment w = false) (hl : 0 < lim) :
    (injectRepeat (setFailures w k lim) k N).1
      = (List.range N).map (fun i : Nat => decide ((i : Int) + 1 ≤ lim)) := by
  have h0 := setFailures_ready w k lim hp
  rw [(injectRepeat_firstN _ k lim 0 h0 N).1]
  apply List.map_congr_left
  intro i _
  have hz : (0 : Int) + (i : Int) + 1 = (i : Int) + 1 := by ring
  rw [hz]
  exact decide_eq_decide.mpr ⟨fun hh => hh.2, fun hh => ⟨hl, hh⟩⟩

/-- Witness for C1 at limit 2 over 4 calls: results true, true, false,
false. -/
theorem firstN_injects_first_limit_calls_witness :
    (injectRepeat (setFailures npWorld "db" 2) "db" 4).1 = [true, true, false, false] :=
  (firstN_injects_first_limit_calls npWorld "db" 2 4 (by decide) (by decide)).trans (by decide)

/-- C2: in a non-production environment, after SetNthFailure(k, n) with
n > 0, the i-th call to Inject(k) returns true exactly when i = n: calls
1..n-1 return false, call n returns true, all later calls return false. -/
theorem nthOnly_injects_exactly_nth_call (w : World) (k : String) (nth : Int) (N : Nat)
    (hp : isProductionEnvironment w = false) (hn : 0 < nth) :
    (injectRepeat (setNthFailure w k nth) k N).1
      = (List.range N).map (fun i : Nat => decide ((i : Int) + 1 = nth)) := by
  have h0 := setNthFailure_ready w k nth hp
  rw [(injectRepeat_nth _ k nth 0 h0 N).1]
  apply List.map_congr_left
  intro i _
  have hz : (0 : Int) + (i : Int) + 1 = (i : Int) + 1 := by ring
  rw [hz]
  exact decide_eq_decide.mpr ⟨fun hh => hh.2, fun hh => ⟨hn, hh⟩⟩

/-- Witness for C2 at n 3 over 5 calls: only the third call injects. -/
theorem nthOnly_injects_exactly_nth_call_witness :
    (injectRepeat (setNthFailure npWorld "db" 3) "db" 5).1
      = [false, false, true, false, false] :=
  (nthOnly_injects_exactly_nth_call npWorld "db" 3 5 (by decide) (by decide)).trans (by decide)

/-- C3: in a production-classified environment, Inject returns false and
leaves the whole world (rules and counters) untouched, SetFailures and
SetNthFailure are no-ops, while Reset still clears the store and Status
still reports remaining first-N budgets, both being ungated. -/
theorem production_gates_inject_and_mutation (w : World) (k : String) (cnt nth : Int)
    (hp : isProductionEnvironment w = true) :
    inject w k = (false, w) ∧
    setFailures w k cnt = w ∧
    setNthFailure w k nth = w ∧
    (reset w).store = Store.empty ∧
    statusW w = w.store.limits.map
      (fun kv => (kv.1, max 0 (kv.2 - getA w.store.counters kv.1))) := by
  refine ⟨?_, ?_, ?_, rfl, ?_⟩
  · unfold inject; rw [hp]; rfl
  · unfold setFailures; rw [hp]; rfl
  · unfold setNthFailure; rw [hp]; rfl
  · unfold statusW
    apply List.map_congr_left
    intro kv _
    have hmax : ∀ z : Int, (if z < 0 then 0 else z) = max 0 z := by
      intro z
      rcases lt_or_le z 0 with hlt | hle
      · rw [if_pos hlt, max_eq_left hlt.le]
      · rw [if_neg (not_lt.mpr hle), max_eq_right hle]
    exact congrArg (fun r => (kv.1, r)) (hmax (kv.2 - getA w.store.counters kv.1))

/-- Witness for C3 at a production world with a configured rule. -/
theorem production_gates_inject_and_mutation_witness :
    inject pWorld "db" = (false, pWorld) ∧
    setFailures pWorld "db" 3 = pWorld ∧
    setNthFailure pWorld "db" 2 = pWorld ∧
    (reset pWorld).store = Store.empty ∧
    statusW pWorld = pWorld.store.limits.map
      (fun kv => (kv.1, max 0 (kv.2 - getA pWorld.store.counters kv.1))) :=
  production_gates_inject_and_mutation pWorld "db" 3 2 (by decide)

/-- Helper for C4: looking a key up in the status output follows the
first-N map, with the remaining budget clamped at zero. -/
theorem findA_status_map (l cntm : SMap) (k : String) :
    findA (l.map (fun kv =>
        let used := getA cntm kv.1
        let rem := kv.2 - used
        (kv.1, if rem < 0 then 0 else rem))) k
      = (findA l k).map (fun v =>
          if v - getA cntm k < 0 then 0 else v - getA cntm k) := by
  induction l with
  | nil => rfl
  | cons kv rest ih =>
    obtain ⟨k1, v⟩ := kv
    simp only [List.map_cons, findA]
    by_cases h : k1 = k
    · rw [if_pos h, if_pos h]
      subst h
      rfl
    · rw [if_neg h, if_neg h]
      exact ih

/-- C4 counterexample: the claim says a key whose first-N rule is
exhausted (counter ≥ limit) is omitted from Status. In a non-production
world, configure SetFailures(k, 1) and call Inject(k) once: the counter
reaches the limit, yet Status still contains the key, mapped to 0. -/
theorem status_keeps_exhausted_keys_counterexample :
    getA (inject (setFailures npWorld "k" 1) "k").2.store.counters "k" = 1 ∧
    findA (inject (setFailures npWorld "k" 1) "k").2.store.limits "k" = some 1 ∧
    ¬ findA (statusW (inject (setFailures npWorld "k" 1) "k").2) "k" = none := by
  refine ⟨by decide, by decide, by decide⟩

/-- C4 amended: Status maps every key carrying a first-N rule — exhausted
or not — to max(0, limit - counter); keys with only an Nth-only rule and
keys with no rule are omitted. -/
theorem status_reports_firstN_remaining (w : World) (k : String) :
    findA (statusW w) k
      = (findA w.store.limits k).map (fun lim => max 0 (lim - getA w.store.counters k)) := by
  unfold statusW
  rw [findA_status_map]
  cases h : findA w.store.limits k with
  | none => rfl
  | some v =>
    have hmax : (if v - getA w.store.counters k < 0 then 0 else v - getA w.store.counters k)
        = max 0 (v - getA w.store.counters k) := by
      rcases lt_or_le (v - getA w.store.counters k) 0 with hlt | hle
      · rw [if_pos hlt, max_eq_left hlt.le]
      · rw [if_neg (not_lt.mpr hle), max_eq_right hle]
    exact congrArg some hmax

/-- C5: InjectWithContext on a cancelled context returns false with the
world untouched (no counter advance); a boolean override stored under the
namespaced key is returned verbatim with the world untouched; otherwise
the call is exactly Inject. -/
theorem injectWithContext_cases (w : World) (c : Ctx) (k : String) :
    (c.cancelled = true → injectWithContext w (some c) k = (false, w)) ∧
    (∀ b : Bool, c.cancelled = false → c.values ("faultinject:" ++ k) = some b →
      injectWithContext w (some c) k = (b, w)) ∧
    (c.cancelled = false → c.values ("faultinject:" ++ k) = none →
      injectWithContext w (some c) k = inject w k) := by
  refine ⟨?_, ?_, ?_⟩
  · intro hc
    simp [injectWithContext, hc]
  · intro b hc ho
    simp [injectWithContext, hc, ho]
  · intro hc ho
    simp [injectWithContext, hc, ho]

/-- Witness for C5: the three context paths at concrete contexts. -/
theorem injectWithContext_cases_witness :
    injectWithContext npWorld (some cancelledCtx) "db" = (false, npWorld) ∧
    injectWithContext npWorld (some overrideCtx) "db" = (true, npWorld) ∧
    injectWithContext npWorld (some plainCtx) "db" = inject npWorld "db" :=
  ⟨(injectWithContext_cases npWorld cancelledCtx "db").1 rfl,
   (injectWithContext_cases npWorld overrideCtx "db").2.1 true rfl (by decide),
   (injectWithContext_cases npWorld plainCtx "db").2.2 rfl rfl⟩

/-- Helper for C6: lowercasing a string yields the empty string exactly
when the string was empty. -/
theorem toLowerStr_eq_empty_iff (s : String) : toLowerStr s = "" ↔ s = "" := by
  cases s with
  | mk data =>
    constructor
    · intro h
      have hd : data.map Char.toLower = [] := congrArg String.data h
      have hnil : data = [] := List.map_eq_nil_iff.mp hd
      rw [hnil]
    · intro h
      rw [h]
      decide

/-- C6: the production classifier of the source equals the claim's
description: resolve the first non-empty of ENVIRONMENT, ENV, GO_ENV
case-insensitively, classify production-list names as production, then
allowed-list names as non-production, and everything else (the empty name
included) as production. -/
theorem isProduction_matches_resolution_spec (w : World) :
    isProductionEnvironment w = isProductionSpec w := by
  have hres : (let env0 := toLowerStr (w.envVars "ENVIRONMENT")
               let env1 := if env0 = "" then toLowerStr (w.envVars "ENV") else env0
               if env1 = "" then toLowerStr (w.envVars "GO_ENV") else env1)
      = resolvedEnvNameSpec w := by
    simp only [resolvedEnvNameSpec, firstNonEmpty]
    by_cases h1 : w.envVars "ENVIRONMENT" = "" <;>
      by_cases h2 : w.envVars "ENV" = "" <;>
        by_cases h3 : w.envVars "GO_ENV" = "" <;>
          simp [h1, h2, h3, toLowerStr_eq_empty_iff]
  simp only [isProductionEnvironment, isProductionSpec]
  rw [hres]

/-- C7: in a non-production environment, a rule configured with a
non-positive parameter — SetFailures with limit ≤ 0 or SetNthFailure with
n ≤ 0 — is accepted and makes every call to Inject(k) return false. -/
theorem nonpositive_rules_never_inject (w : World) (k : String) (lim nth : Int) (N : Nat)
    (hp : isProductionEnvironment w = false) :
    (lim ≤ 0 → (injectRepeat (setFailures w k lim) k N).1 = List.replicate N false) ∧
    (nth ≤ 0 → (injectRepeat (setNthFailure w k nth) k N).1 = List.replicate N false) := by
  constructor
  · intro hl
    rw [(injectRepeat_firstN _ k lim 0 (setFailures_ready w k lim hp) N).1]
    have hall : ∀ i ∈ List.range N,
        (decide (0 < lim ∧ 0 + (i : Int) + 1 ≤ lim)) = false := by
      intro i _
      exact decide_eq_false (fun hh => absurd hh.1 (not_lt.mpr hl))
    rw [List.map_congr_left hall, List.map_const', List.length_range]
  · intro hn
    rw [(injectRepeat_nth _ k nth 0 (setNthFailure_ready w k nth hp) N).1]
    have hall : ∀ i ∈ List.range N,
        (decide (0 < nth ∧ 0 + (i : Int) + 1 = nth)) = false := by
      intro i _
      exact decide_eq_false (fun hh => absurd hh.1 (not_lt.mpr hn))
    rw [List.map_congr_left hall, List.map_const', List.length_range]

/-- Witness for C7: limit 0 and n equal to minus one never inject over
three calls. -/
theorem nonpositive_rules_never_inject_witness :
    (injectRepeat (setFailures npWorld "db" 0) "db" 3).1 = List.replicate 3 false ∧
    (injectRepeat (setNthFailure npWorld "db" (-1)) "db" 3).1 = List.replicate 3 false :=
  ⟨(nonpositive_rules_never_inject npWorld "db" 0 (-1) 3 (by decide)).1 (by decide),
   (nonpositive_rules_never_inject npWorld "db" 0 (-1) 3 (by decide)).2 (by decide)⟩

/-- Helper for C8: among attempts 1..N, those at most lim number exactly
min N lim.toNat when lim is positive. -/
theorem countP_range_min (N : Nat) (lim : Int) (hl : 0 < lim) :
    (List.range N).countP (fun i : Nat => decide ((i : Int) + 1 ≤ lim)) = min N lim.toNat := by
  induction N with
  | zero => simp
  | succ N ih =>
    rw [List.range_succ, List.countP_append, ih]
    by_cases h : ((N : Int) + 1 ≤ lim)
    · have hp1 : (decide ((N : Int) + 1 ≤ lim)) = true := decide_eq_true h
      rw [List.countP_cons, List.countP_nil, hp1]
      have h3 : N < lim.toNat := by omega
      simp
      omega
    · have hp1 : (decide ((N : Int) + 1 ≤ lim)) = false := decide_eq_false h
      rw [List.countP_cons, List.countP_nil, hp1]
      have h3 : lim.toNat ≤ N := by omega
      simp
      omega

/-- C8: each Inject call holds the store mutex for its whole
read-increment-compare sequence, so a run of N concurrent one-shot
callers is a serialisation: N successive calls in lock-acquisition
order. Against a fresh FirstN(limit) rule, the serialised trace gives
true to exactly the first limit callers — min N limit.toNat trues in
total — and the attempt numbers observed are exactly 1, 2, ..., N:
strictly increasing, no duplicates, no gaps. -/
theorem concurrent_firstN_serialized_trace (w : World) (k : String) (lim : Int) (N : Nat)
    (hp : isProductionEnvironment w = false) (hl : 0 < lim) :
    (injectTrace (setFailures w k lim) k N).1
      = (List.range N).map (fun i : Nat => (decide ((i : Int) + 1 ≤ lim), (i : Int) + 1)) ∧
    (injectTrace (setFailures w k lim) k N).1.map Prod.snd
      = (List.range N).map (fun i : Nat => (i : Int) + 1) ∧
    List.Pairwise (fun a b : Int => a < b)
      ((injectTrace (setFailures w k lim) k N).1.map Prod.snd) ∧
    (injectTrace (setFailures w k lim) k N).1.countP (fun p => p.1) = min N lim.toNat := by
  have htr := (injectTrace_firstN _ k lim 0 (setFailures_ready w k lim hp) N).1
  have h1 : (injectTrace (setFailures w k lim) k N).1
      = (List.range N).map (fun i : Nat => (decide ((i : Int) + 1 ≤ lim), (i : Int) + 1)) := by
    rw [htr]
    apply List.map_congr_left
    intro i _
    have hz : (0 : Int) + (i : Int) + 1 = (i : Int) + 1 := by ring
    rw [hz]
    exact congrArg (fun b => (b, (i : Int) + 1))
      (decide_eq_decide.mpr ⟨fun hh => hh.2, fun hh => ⟨hl, hh⟩⟩)
  have h2 : (injectTrace (setFailures w k lim) k N).1.map Prod.snd
      = (List.range N).map (fun i : Nat => (i : Int) + 1) := by
    rw [h1, List.map_map]
    rfl
  refine ⟨h1, h2, ?_, ?_⟩
  · rw [h2, List.pairwise_map]
    exact (List.pairwise_lt_range N).imp (fun hab => by omega)
  · rw [h1, List.countP_map]
    exact countP_range_min N lim hl

/-- Witness for C8 at limit 2 over 3 serialised callers. -/
theorem concurrent_firstN_serialized_trace_witness :
    (injectTrace (setFailures npWorld "db" 2) "db" 3).1 = [(true, 1), (true, 2), (false, 3)] ∧
    (injectTrace (setFailures npWorld "db" 2) "db" 3).1.countP (fun p => p.1)
      = min 3 (2 : Int).toNat :=
  ⟨((concurrent_firstN_serialized_trace npWorld "db" 2 3 (by decide) (by decide)).1).trans
      (by decide),
   (concurrent_firstN_serialized_trace npWorld "db" 2 3 (by decide) (by decide)).2.2.2⟩

/-- C9: when LoadSpec fails — the file cannot be read, or the document
does not unmarshal (malformed or non-integer values) — the error is
returned and the rule store is exactly as before the call: no Reset and
no mutation happens. Mutations run only after the whole document parses. -/
theorem loadSpec_failure_leaves_state (w : World) (parse : String → Except String SpecCfg)
    (e data : String) :
    loadSpec w (Except.error e) parse = (Except.error e, w) ∧
    (parse data = Except.error e →
      loadSpec w (Except.ok data) parse = (Except.error e, w)) := by
  constructor
  · rfl
  · intro h
    simp [loadSpec, h]

/-- Witness for C9: a read failure and a parse failure, both leaving the
world untouched. -/
theorem loadSpec_failure_leaves_state_witness :
    loadSpec npWorld (Except.error "no such file") (fun _ => Except.error "parse error")
      = (Except.error "no such file", npWorld) ∧
    loadSpec npWorld (Except.ok "failures: oops") (fun _ => Except.error "yaml error")
      = (Except.error "yaml error", npWorld) :=
  ⟨(loadSpec_failure_leaves_state npWorld (fun _ => Except.error "parse error")
      "no such file" "x").1,
   (loadSpec_failure_leaves_state npWorld (fun _ => Except.error "yaml error")
      "yaml error" "failures: oops").2 rfl⟩

/-- C10: the context-override lookup of InjectWithContext runs before any
production check, so even in a production-classified environment a boolean
override stored under the namespaced key is returned verbatim — true
included — while the delegation path through Inject stays gated. -/
theorem context_override_bypasses_production_gate (w : World) (c : Ctx) (k : String) (b : Bool)
    (hprod : isProductionEnvironment w = true)
    (hlive : c.cancelled = false)
    (hov : c.values ("faultinject:" ++ k) = some b) :
    injectWithContext w (some c) k = (b, w) ∧ inject w k = (false, w) := by
  constructor
  · simp [injectWithContext, hlive, hov]
  · unfold inject
    rw [hprod]
    rfl

/-- Witness for C10: a production world returning a true override. -/
theorem context_override_bypasses_production_gate_witness :
    injectWithContext pWorld (some overrideCtx) "db" = (true, pWorld) ∧
    inject pWorld "db" = (false, pWorld) :=
  context_override_bypasses_production_gate pWorld overrideCtx "db" true
    (by decide) rfl (by decide)

end FaultInject
